import Mathlib

/-!
# Verification of the DiemCreditEscrow contract

A shallow embedding of `src/contracts/src/DiemCreditEscrow.sol` (Solidity 0.8).

Modelling conventions:
* Addresses and `bytes32` values are `Nat`; `0` is the zero address / zero hash.
  The execution environment guarantees `msg.sender` is never the zero address.
* Solidity 0.8 checked arithmetic reverts on under/overflow.  Subtraction is
  modelled exactly with `csub` (returning `none` on underflow = revert).
  Addition and multiplication are modelled as exact `Nat` operations: a
  Solidity overflow revert leaves the state unchanged, so omitting the
  overflow check only enlarges the set of modelled executions and every
  on-chain reachable state remains a modelled reachable state.
* Escrow ids: the contract derives ids from a keccak hash of a caller nonce,
  which makes them unique; we model ids as positions in a list, appended at
  creation.  An id that was never created maps to `none`; on chain such an id
  holds the all-zero default record, on which (given a nonzero sender) every
  state-mutating entry point reverts, so this is faithful.
* Each entry point returns `Option (ContractState × List Eff)`: `none` models
  a revert (no state change at all); the `Eff` trace records, in source
  statement order, the status writes, provider-balance writes, platform-fee
  writes and external token calls the body performs.
* The token (`usdc`) is external: `TokenEnv` says which transfers succeed.
  A failed transfer makes the whole call revert, exactly as the `require`
  around each transfer does in the source.
* `TimelockController.sol` / OpenZeppelin `Ownable` are not part of the
  sources; `onlyOwner` is modelled by the standard semantics the contract
  relies on: the caller must equal the stored owner (set at deployment).
* `totalDeposited` and `refundsPaid` are history variables (not contract
  storage): they accumulate the amounts pulled in by `fundEscrow` and the
  amounts transferred out to consumers, which the conservation claim refers
  to.  They shadow the traces and never influence control flow.
* `nonReentrant` needs no model: execution here is serial (one call runs to
  completion before the next), which is the property the guard enforces.
-/

namespace Diem

/-- Escrow lifecycle status, from `enum Status` in DiemCreditEscrow.sol. -/
inductive Status where
  | Pending
  | Funded
  | Active
  | Completed
  | Disputed
  | Refunded
deriving DecidableEq, Repr

/-- One escrow record, from `struct Escrow` in DiemCreditEscrow.sol. -/
structure EscrowRec where
  provider : Nat
  consumer : Nat
  amount : Nat
  diemLimit : Nat
  duration : Nat
  startTime : Nat
  endTime : Nat
  status : Status
  apiKeyHash : Nat
  reportedUsage : Nat
  providerConfirmed : Bool
  consumerConfirmed : Bool
  completionUnlockTime : Nat
deriving DecidableEq, Repr

/-- Observable effects of a call, in source statement order: status writes,
`providerBalances` writes, `accumulatedPlatformFees` writes, and the external
token calls (`usdc.transfer` / `usdc.transferFrom`). -/
inductive Eff where
  | statusWrite (id : Nat) (st : Status)
  | balWrite (addr val : Nat)
  | feesWrite (val : Nat)
  | transferOut (dst amt : Nat)
  | transferIn (src amt : Nat)
deriving DecidableEq, Repr

/-- The external USDC token: which transfers succeed in the current
environment.  A `false` answer makes the surrounding `require` revert. -/
structure TokenEnv where
  transferOk : Nat → Nat → Bool
  transferFromOk : Nat → Nat → Bool

/-- `mapping(address => uint256)` with finitely many touched keys, as an
association list (first hit wins). -/
def getBal : List (Nat × Nat) → Nat → Nat
  | [], _ => 0
  | (b, w) :: t, a => if b = a then w else getBal t a

/-- `providerBalances[a] += v`. -/
def addBal : List (Nat × Nat) → Nat → Nat → List (Nat × Nat)
  | [], a, v => [(a, v)]
  | (b, w) :: t, a, v => if b = a then (b, w + v) :: t else (b, w) :: addBal t a v

/-- `providerBalances[a] = 0`. -/
def zeroBal : List (Nat × Nat) → Nat → List (Nat × Nat)
  | [], _ => []
  | (b, w) :: t, a => if b = a then (b, 0) :: t else (b, w) :: zeroBal t a

/-- Sum of all stored balances. -/
def sumBals (l : List (Nat × Nat)) : Nat := (l.map Prod.snd).sum

/-- Checked subtraction: Solidity 0.8 reverts on underflow. -/
def csub (a b : Nat) : Option Nat := if b ≤ a then some (a - b) else none

/-- `BPS_DENOMINATOR = 10000`. -/
def BPS_DENOMINATOR : Nat := 10000

/-- Full contract storage, plus the two history variables described in the
file header. -/
structure ContractState where
  escrows : List EscrowRec
  providerBalances : List (Nat × Nat)
  accumulatedPlatformFees : Nat
  platformFeeBps : Nat
  unusedPenaltyBps : Nat
  defaultDuration : Nat
  maxEscrowAmount : Nat
  completionDelay : Nat
  pendingPlatformFeeBps : Nat
  pendingUnusedPenaltyBps : Nat
  feeUpdateScheduledTime : Nat
  paused : Bool
  unpauseScheduledTime : Nat
  owner : Nat
  totalDeposited : Nat
  refundsPaid : Nat
deriving Repr, DecidableEq

/-- State right after the constructor ran (field initializers of the source). -/
def initState (deployer : Nat) : ContractState :=
  { escrows := []
    providerBalances := []
    accumulatedPlatformFees := 0
    platformFeeBps := 100
    unusedPenaltyBps := 500
    defaultDuration := 86400
    maxEscrowAmount := 10000 * 1000000
    completionDelay := 3600
    pendingPlatformFeeBps := 0
    pendingUnusedPenaltyBps := 0
    feeUpdateScheduledTime := 0
    paused := false
    unpauseScheduledTime := 0
    owner := deployer
    totalDeposited := 0
    refundsPaid := 0 }

/-- `createEscrow(_provider, _diemLimit, _amount, _duration)`. -/
def createEscrow (s : ContractState) (caller _provider _diemLimit _amount _duration : Nat) :
    Option (ContractState × List Eff) :=
  if s.paused then none
  else if _provider = 0 then none
  else if _provider = caller then none
  else if _diemLimit = 0 then none
  else if _amount = 0 then none
  else if s.maxEscrowAmount < _amount then none
  else
    let duration := if _duration = 0 then s.defaultDuration else _duration
    let e : EscrowRec :=
      { provider := _provider, consumer := caller, amount := _amount
        diemLimit := _diemLimit, duration := duration, startTime := 0, endTime := 0
        status := Status.Pending, apiKeyHash := 0, reportedUsage := 0
        providerConfirmed := false, consumerConfirmed := false, completionUnlockTime := 0 }
    some ({ s with escrows := s.escrows ++ [e] }, [])

/-- `fundEscrow(_escrowId)`. -/
def fundEscrow (tok : TokenEnv) (s : ContractState) (caller id now : Nat) :
    Option (ContractState × List Eff) :=
  if s.paused then none
  else match s.escrows[id]? with
  | none => none
  | some e =>
    if e.consumer ≠ caller then none
    else if e.status ≠ Status.Pending then none
    else if tok.transferFromOk caller e.amount = false then none
    else
      let e1 := { e with startTime := now, endTime := now + e.duration
                         status := Status.Funded }
      some ({ s with escrows := s.escrows.set id e1
                     totalDeposited := s.totalDeposited + e.amount },
            [Eff.transferIn caller e.amount, Eff.statusWrite id Status.Funded])

/-- `deliverKey(_escrowId, _apiKeyHash)`. -/
def deliverKey (s : ContractState) (caller id keyHash : Nat) :
    Option (ContractState × List Eff) :=
  if s.paused then none
  else match s.escrows[id]? with
  | none => none
  | some e =>
    if e.provider ≠ caller then none
    else if e.status ≠ Status.Funded then none
    else if keyHash = 0 then none
    else
      some ({ s with escrows :=
                s.escrows.set id { e with apiKeyHash := keyHash, status := Status.Active } },
            [Eff.statusWrite id Status.Active])

/-- `confirmKeyReceipt(_escrowId)` (only emits an event; no storage write). -/
def confirmKeyReceipt (s : ContractState) (caller id : Nat) :
    Option (ContractState × List Eff) :=
  match s.escrows[id]? with
  | none => none
  | some e =>
    if e.consumer ≠ caller then none
    else if e.status ≠ Status.Active then none
    else some (s, [])

/-- `reportUsage(_escrowId, _usage)`. -/
def reportUsage (s : ContractState) (caller id usage now : Nat) :
    Option (ContractState × List Eff) :=
  if s.paused then none
  else match s.escrows[id]? with
  | none => none
  | some e =>
    if e.status ≠ Status.Active then none
    else if e.diemLimit < usage then none
    else if e.endTime + 3600 < now then none
    else if caller = e.consumer then
      let e1 := { e with reportedUsage := usage, consumerConfirmed := true }
      let e2 := if e1.consumerConfirmed ∧ e1.providerConfirmed ∧ e1.completionUnlockTime = 0
                then { e1 with completionUnlockTime := now + s.completionDelay } else e1
      some ({ s with escrows := s.escrows.set id e2 }, [])
    else if caller = e.provider then
      if e.consumerConfirmed = false then none
      else if e.reportedUsage ≠ usage then none
      else
        let e1 := { e with providerConfirmed := true }
        let e2 := if e1.consumerConfirmed ∧ e1.providerConfirmed ∧ e1.completionUnlockTime = 0
                  then { e1 with completionUnlockTime := now + s.completionDelay } else e1
        some ({ s with escrows := s.escrows.set id e2 }, [])
    else none

/-- `_completeEscrow(_escrowId)` (internal settlement). -/
def completeEscrow (tok : TokenEnv) (s : ContractState) (id : Nat) :
    Option (ContractState × List Eff) :=
  match s.escrows[id]? with
  | none => none
  | some e =>
    if e.status ≠ Status.Active then none
    else if e.diemLimit = 0 then none
    else
      let usedAmount := e.amount * e.reportedUsage / e.diemLimit
      match csub e.amount usedAmount with
      | none => none
      | some unusedAmount =>
        let platformFee := usedAmount * s.platformFeeBps / BPS_DENOMINATOR
        let penaltyAmount := unusedAmount * s.unusedPenaltyBps / BPS_DENOMINATOR
        match csub usedAmount platformFee with
        | none => none
        | some diff =>
          let providerAmount := diff + penaltyAmount
          match csub unusedAmount penaltyAmount with
          | none => none
          | some consumerRefund =>
            if 0 < consumerRefund ∧ tok.transferOk e.consumer consumerRefund = false
            then none
            else
              some ({ s with
                        escrows := s.escrows.set id { e with status := Status.Completed }
                        accumulatedPlatformFees := s.accumulatedPlatformFees + platformFee
                        providerBalances := addBal s.providerBalances e.provider providerAmount
                        refundsPaid := s.refundsPaid + consumerRefund },
                    [Eff.feesWrite (s.accumulatedPlatformFees + platformFee),
                     Eff.statusWrite id Status.Completed,
                     Eff.balWrite e.provider
                       (getBal s.providerBalances e.provider + providerAmount)] ++
                    (if 0 < consumerRefund
                     then [Eff.transferOut e.consumer consumerRefund] else []))

/-- `executeCompletion(_escrowId)`. -/
def executeCompletion (tok : TokenEnv) (s : ContractState) (id now : Nat) :
    Option (ContractState × List Eff) :=
  if s.paused then none
  else match s.escrows[id]? with
  | none => none
  | some e =>
    if e.status ≠ Status.Active then none
    else if ¬ (e.consumerConfirmed = true ∧ e.providerConfirmed = true) then none
    else if ¬ (0 < e.completionUnlockTime ∧ e.completionUnlockTime ≤ now) then none
    else completeEscrow tok s id

/-- `raiseDispute(_escrowId)` (note: no `whenNotPaused` in the source). -/
def raiseDispute (s : ContractState) (caller id now : Nat) :
    Option (ContractState × List Eff) :=
  match s.escrows[id]? with
  | none => none
  | some e =>
    if e.status ≠ Status.Active then none
    else if ¬ (caller = e.consumer ∨ caller = e.provider) then none
    else if e.endTime + 86400 < now then none
    else
      some ({ s with escrows := s.escrows.set id { e with status := Status.Disputed } },
            [Eff.statusWrite id Status.Disputed])

/-- `resolveDispute(_escrowId, _providerAmount, _consumerAmount)`. -/
def resolveDispute (tok : TokenEnv) (s : ContractState) (caller id pAmt cAmt : Nat) :
    Option (ContractState × List Eff) :=
  if caller ≠ s.owner then none
  else match s.escrows[id]? with
  | none => none
  | some e =>
    if e.status ≠ Status.Disputed then none
    else if e.amount < pAmt + cAmt then none
    else if 0 < cAmt ∧ tok.transferOk e.consumer cAmt = false then none
    else
      some ({ s with
                escrows := s.escrows.set id { e with status := Status.Completed }
                providerBalances :=
                  if 0 < pAmt then addBal s.providerBalances e.provider pAmt
                  else s.providerBalances
                refundsPaid := s.refundsPaid + cAmt },
            [Eff.statusWrite id Status.Completed] ++
            (if 0 < pAmt
             then [Eff.balWrite e.provider (getBal s.providerBalances e.provider + pAmt)]
             else []) ++
            (if 0 < cAmt then [Eff.transferOut e.consumer cAmt] else []))

/-- `refundExpired(_escrowId)`. -/
def refundExpired (tok : TokenEnv) (s : ContractState) (id now : Nat) :
    Option (ContractState × List Eff) :=
  if s.paused then none
  else match s.escrows[id]? with
  | none => none
  | some e =>
    if e.status ≠ Status.Funded then none
    else if ¬ (e.startTime + 3600 < now) then none
    else if tok.transferOk e.consumer e.amount = false then none
    else
      some ({ s with
                escrows := s.escrows.set id { e with status := Status.Refunded }
                refundsPaid := s.refundsPaid + e.amount },
            [Eff.statusWrite id Status.Refunded, Eff.transferOut e.consumer e.amount])

/-- `autoComplete(_escrowId)`. -/
def autoComplete (tok : TokenEnv) (s : ContractState) (id now : Nat) :
    Option (ContractState × List Eff) :=
  if s.paused then none
  else match s.escrows[id]? with
  | none => none
  | some e =>
    if e.status ≠ Status.Active then none
    else if ¬ (e.endTime + 7200 < now) then none
    else if e.consumerConfirmed = true then none
    else
      let e1 := { e with reportedUsage := e.diemLimit
                         consumerConfirmed := true, providerConfirmed := true }
      completeEscrow tok { s with escrows := s.escrows.set id e1 } id

/-- `withdrawProviderBalance()`. -/
def withdrawProviderBalance (tok : TokenEnv) (s : ContractState) (caller : Nat) :
    Option (ContractState × List Eff) :=
  let amount := getBal s.providerBalances caller
  if amount = 0 then none
  else if tok.transferOk caller amount = false then none
  else
    some ({ s with providerBalances := zeroBal s.providerBalances caller },
          [Eff.balWrite caller 0, Eff.transferOut caller amount])

/-- `withdrawPlatformFees()`. -/
def withdrawPlatformFees (tok : TokenEnv) (s : ContractState) (caller : Nat) :
    Option (ContractState × List Eff) :=
  if caller ≠ s.owner then none
  else
    let amount := s.accumulatedPlatformFees
    if amount = 0 then none
    else if tok.transferOk s.owner amount = false then none
    else
      some ({ s with accumulatedPlatformFees := 0 },
            [Eff.feesWrite 0, Eff.transferOut s.owner amount])

/-- `scheduleFeeUpdate(_platformFeeBps, _unusedPenaltyBps)`. -/
def scheduleFeeUpdate (s : ContractState) (caller p u now : Nat) :
    Option (ContractState × List Eff) :=
  if caller ≠ s.owner then none
  else if 500 < p then none
  else if 2000 < u then none
  else if s.feeUpdateScheduledTime ≠ 0 then none
  else
    some ({ s with pendingPlatformFeeBps := p, pendingUnusedPenaltyBps := u
                   feeUpdateScheduledTime := now + 86400 }, [])

/-- `executeFeeUpdate()` (callable by anyone). -/
def executeFeeUpdate (s : ContractState) (now : Nat) :
    Option (ContractState × List Eff) :=
  if s.feeUpdateScheduledTime = 0 then none
  else if now < s.feeUpdateScheduledTime then none
  else
    some ({ s with platformFeeBps := s.pendingPlatformFeeBps
                   unusedPenaltyBps := s.pendingUnusedPenaltyBps
                   feeUpdateScheduledTime := 0 }, [])

/-- `cancelFeeUpdate()`. -/
def cancelFeeUpdate (s : ContractState) (caller : Nat) :
    Option (ContractState × List Eff) :=
  if caller ≠ s.owner then none
  else if s.feeUpdateScheduledTime = 0 then none
  else some ({ s with feeUpdateScheduledTime := 0 }, [])

/-- `pause()`. -/
def pause (s : ContractState) (caller : Nat) : Option (ContractState × List Eff) :=
  if caller ≠ s.owner then none
  else some ({ s with paused := true, unpauseScheduledTime := 0 }, [])

/-- `scheduleUnpause()`. -/
def scheduleUnpause (s : ContractState) (caller now : Nat) :
    Option (ContractState × List Eff) :=
  if caller ≠ s.owner then none
  else if s.paused = false then none
  else if s.unpauseScheduledTime ≠ 0 then none
  else some ({ s with unpauseScheduledTime := now + 86400 }, [])

/-- `unpause()` (callable by anyone once scheduled). -/
def unpause (s : ContractState) (now : Nat) : Option (ContractState × List Eff) :=
  if s.paused = false then none
  else if s.unpauseScheduledTime = 0 then none
  else if now < s.unpauseScheduledTime then none
  else some ({ s with paused := false, unpauseScheduledTime := 0 }, [])

/-- `setMaxEscrowAmount(_max)`. -/
def setMaxEscrowAmount (s : ContractState) (caller m : Nat) :
    Option (ContractState × List Eff) :=
  if caller ≠ s.owner then none
  else if m < 1000000 then none
  else some ({ s with maxEscrowAmount := m }, [])

/-- `setCompletionDelay(_delay)`. -/
def setCompletionDelay (s : ContractState) (caller d : Nat) :
    Option (ContractState × List Eff) :=
  if caller ≠ s.owner then none
  else some ({ s with completionDelay := d }, [])

/-- `emergencyRefund(_escrowId)` (owner-only, only while paused). -/
def emergencyRefund (tok : TokenEnv) (s : ContractState) (caller id : Nat) :
    Option (ContractState × List Eff) :=
  if caller ≠ s.owner then none
  else if s.paused = false then none
  else match s.escrows[id]? with
  | none => none
  | some e =>
    if ¬ (e.status = Status.Funded ∨ e.status = Status.Active) then none
    else if e.amount = 0 then none
    else if tok.transferOk e.consumer e.amount = false then none
    else
      some ({ s with
                escrows := s.escrows.set id { e with status := Status.Refunded }
                refundsPaid := s.refundsPaid + e.amount },
            [Eff.statusWrite id Status.Refunded, Eff.transferOut e.consumer e.amount])

/-- `calculateDistribution(_totalAmount, _diemLimit, _usage)` (view), reading
the current `platformFeeBps` / `unusedPenaltyBps`. -/
def calculateDistribution (platformFeeBps unusedPenaltyBps : Nat)
    (_totalAmount _diemLimit _usage : Nat) : Option (Nat × Nat × Nat × Nat) :=
  if _diemLimit = 0 then none
  else
    let usedAmount := _totalAmount * _usage / _diemLimit
    match csub _totalAmount usedAmount with
    | none => none
    | some unusedAmount =>
      let platformFee := usedAmount * platformFeeBps / BPS_DENOMINATOR
      let penaltyAmount := unusedAmount * unusedPenaltyBps / BPS_DENOMINATOR
      match csub usedAmount platformFee with
      | none => none
      | some diff =>
        match csub unusedAmount penaltyAmount with
        | none => none
        | some consumerRefund =>
          some (diff + penaltyAmount, consumerRefund, platformFee, penaltyAmount)

/-- Modelled from the spec (section 4.2 reference formulas), for comparison
with `calculateDistribution`:
`usedAmount = floor(amount*usage/usageLimit)`, `unusedAmount = amount - usedAmount`,
`platformFee = floor(usedAmount*platformFeeBps/10000)`,
`penaltyAmount = floor(unusedAmount*unusedPenaltyBps/10000)`,
`providerAmount = usedAmount - platformFee + penaltyAmount`,
`consumerRefund = unusedAmount - penaltyAmount`. -/
def specDistribution (amount usageLimit usage platformFeeBps unusedPenaltyBps : Nat) :
    Nat × Nat × Nat × Nat :=
  let usedAmount := amount * usage / usageLimit
  let unusedAmount := amount - usedAmount
  let platformFee := usedAmount * platformFeeBps / 10000
  let penaltyAmount := unusedAmount * unusedPenaltyBps / 10000
  (usedAmount - platformFee + penaltyAmount, unusedAmount - penaltyAmount,
   platformFee, penaltyAmount)

/-- All external calls, bundled for the transition system. -/
inductive Act where
  | create (caller _provider _diemLimit _amount _duration : Nat)
  | fund (caller id now : Nat)
  | deliver (caller id keyHash : Nat)
  | confirmKey (caller id : Nat)
  | report (caller id usage now : Nat)
  | execComplete (id now : Nat)
  | dispute (caller id now : Nat)
  | resolve (caller id pAmt cAmt : Nat)
  | refundExp (id now : Nat)
  | autoComp (id now : Nat)
  | withdrawProvider (caller : Nat)
  | withdrawFees (caller : Nat)
  | schedFee (caller p u now : Nat)
  | execFee (now : Nat)
  | cancelFee (caller : Nat)
  | doPause (caller : Nat)
  | schedUnpause (caller now : Nat)
  | doUnpause (now : Nat)
  | setMax (caller m : Nat)
  | setDelay (caller d : Nat)
  | emergency (caller id : Nat)
deriving DecidableEq, Repr

/-- One external call against the contract. -/
def exec (tok : TokenEnv) (s : ContractState) : Act → Option (ContractState × List Eff)
  | .create caller p l a d => createEscrow s caller p l a d
  | .fund caller id now => fundEscrow tok s caller id now
  | .deliver caller id kh => deliverKey s caller id kh
  | .confirmKey caller id => confirmKeyReceipt s caller id
  | .report caller id usage now => reportUsage s caller id usage now
  | .execComplete id now => executeCompletion tok s id now
  | .dispute caller id now => raiseDispute s caller id now
  | .resolve caller id pAmt cAmt => resolveDispute tok s caller id pAmt cAmt
  | .refundExp id now => refundExpired tok s id now
  | .autoComp id now => autoComplete tok s id now
  | .withdrawProvider caller => withdrawProviderBalance tok s caller
  | .withdrawFees caller => withdrawPlatformFees tok s caller
  | .schedFee caller p u now => scheduleFeeUpdate s caller p u now
  | .execFee now => executeFeeUpdate s now
  | .cancelFee caller => cancelFeeUpdate s caller
  | .doPause caller => pause s caller
  | .schedUnpause caller now => scheduleUnpause s caller now
  | .doUnpause now => unpause s now
  | .setMax caller m => setMaxEscrowAmount s caller m
  | .setDelay caller d => setCompletionDelay s caller d
  | .emergency caller id => emergencyRefund tok s caller id

/-- States reachable from deployment by any sequence of successful calls
(reverted calls leave the state unchanged and so add nothing). -/
inductive Reachable : ContractState → Prop
  | init (deployer : Nat) : Reachable (initState deployer)
  | step {s s' : ContractState} {tok : TokenEnv} {a : Act} {tr : List Eff} :
      Reachable s → exec tok s a = some (s', tr) → Reachable s'

/-- Tokens still held in custody for an escrow: its full `amount` while the
escrow is funded but not yet settled or refunded. -/
def heldContrib (e : EscrowRec) : Nat :=
  if e.status = Status.Funded ∨ e.status = Status.Active ∨ e.status = Status.Disputed
  then e.amount else 0

/-- Tokens held in custody across all escrows. -/
def heldSum (l : List EscrowRec) : Nat := (l.map heldContrib).sum

/-- Value conservation, strengthened with the in-custody amounts so that it is
inductive over every transition. -/
def Conserved (s : ContractState) : Prop :=
  sumBals s.providerBalances + s.accumulatedPlatformFees + s.refundsPaid +
    heldSum s.escrows ≤ s.totalDeposited

/-- An outgoing external token transfer. -/
def isTransferOut : Eff → Bool
  | .transferOut _ _ => true
  | _ => false

/-- Total amount pushed out by the external transfers of a trace. -/
def paidOut : List Eff → Nat
  | [] => 0
  | .transferOut _ amt :: t => amt + paidOut t
  | _ :: t => paidOut t

/-- Scanning the trace left to right, the write `e0` occurs before any
outgoing token transfer does. -/
def writeBeforeTransfers (e0 : Eff) : List Eff → Bool
  | [] => false
  | e :: t => if e = e0 then true else if isTransferOut e then false
              else writeBeforeTransfers e0 t

/-- A token environment in which every transfer succeeds. -/
def tokAll : TokenEnv := ⟨fun _ _ => true, fun _ _ => true⟩

/-- The deployment state (owner = address 1) right after `pause()`. -/
def pausedInit : ContractState := { initState 1 with paused := true, unpauseScheduledTime := 0 }

/-- `pausedInit` after the owner calls `setMaxEscrowAmount(2_000_000)`. -/
def maxChangedInit : ContractState := { pausedInit with maxEscrowAmount := 2000000 }

/-- A concrete Active escrow with both parties confirmed, used by witnesses. -/
def eBoth : EscrowRec :=
  { provider := 2, consumer := 3, amount := 1000000, diemLimit := 100
    duration := 86400, startTime := 0, endTime := 86400, status := Status.Active
    apiKeyHash := 7, reportedUsage := 50, providerConfirmed := true
    consumerConfirmed := true, completionUnlockTime := 5000 }

/-- A concrete deployed state holding `eBoth` as escrow 0. -/
def sBoth : ContractState := { initState 1 with escrows := [eBoth] }

/-- The state `executeCompletion` produces from `sBoth` at time 6000:
used = 500000, fee = 5000, penalty = 25000, provider credit = 520000,
consumer refund = 475000. -/
def sCompleted : ContractState :=
  { sBoth with
      escrows := [{ eBoth with status := Status.Completed }]
      providerBalances := [(2, 520000)]
      accumulatedPlatformFees := 5000
      refundsPaid := 475000 }

/-- The effect trace of that completion. -/
def trCompleted : List Eff :=
  [Eff.feesWrite 5000, Eff.statusWrite 0 Status.Completed, Eff.balWrite 2 520000,
   Eff.transferOut 3 475000]

/-- `eBoth` with only the consumer confirmed (provider not yet ratified). -/
def eHalf : EscrowRec := { eBoth with providerConfirmed := false, completionUnlockTime := 0 }

/-- A concrete deployed state holding `eHalf` as escrow 0. -/
def sHalf : ContractState := { initState 1 with escrows := [eHalf] }

/-! ## Bookkeeping lemmas -/

theorem sumBals_cons (x : Nat × Nat) (t : List (Nat × Nat)) :
    sumBals (x :: t) = x.2 + sumBals t := by
  simp [sumBals]

theorem sumBals_addBal (l : List (Nat × Nat)) (a v : Nat) :
    sumBals (addBal l a v) = sumBals l + v := by
  induction l with
  | nil => simp [addBal, sumBals]
  | cons x t ih =>
    obtain ⟨b, w⟩ := x
    by_cases hb : b = a
    · simp [addBal, hb, sumBals_cons]; omega
    · simp [addBal, hb, sumBals_cons, ih]; omega

theorem getBal_addBal (l : List (Nat × Nat)) (a v : Nat) :
    getBal (addBal l a v) a = getBal l a + v := by
  induction l with
  | nil => simp [addBal, getBal]
  | cons x t ih =>
    obtain ⟨b, w⟩ := x
    by_cases hb : b = a
    · simp [addBal, hb, getBal]
    · simp [addBal, hb, getBal, ih]

theorem sumBals_zeroBal (l : List (Nat × Nat)) (a : Nat) :
    sumBals (zeroBal l a) + getBal l a = sumBals l := by
  induction l with
  | nil => simp [zeroBal, getBal, sumBals]
  | cons x t ih =>
    obtain ⟨b, w⟩ := x
    by_cases hb : b = a
    · simp [zeroBal, hb, getBal, sumBals_cons]; omega
    · simp [zeroBal, hb, getBal, sumBals_cons]; omega

theorem getBal_zeroBal (l : List (Nat × Nat)) (a : Nat) :
    getBal (zeroBal l a) a = 0 := by
  induction l with
  | nil => simp [zeroBal, getBal]
  | cons x t ih =>
    obtain ⟨b, w⟩ := x
    by_cases hb : b = a
    · simp [zeroBal, hb, getBal]
    · simp [zeroBal, hb, getBal, ih]

theorem heldSum_cons (e : EscrowRec) (t : List EscrowRec) :
    heldSum (e :: t) = heldContrib e + heldSum t := by
  simp [heldSum]

theorem heldSum_append (l : List EscrowRec) (e : EscrowRec) :
    heldSum (l ++ [e]) = heldSum l + heldContrib e := by
  simp [heldSum]

theorem heldSum_set (l : List EscrowRec) (i : Nat) (e e' : EscrowRec)
    (h : l[i]? = some e) :
    heldSum (l.set i e') + heldContrib e = heldSum l + heldContrib e' := by
  induction l generalizing i with
  | nil => simp at h
  | cons x t ih =>
    cases i with
    | zero =>
      simp at h
      subst h
      simp [heldSum_cons]
      omega
    | succ n =>
      simp at h
      have := ih n h
      simp [heldSum_cons]
      omega

theorem getElem?_set_same {α : Type} (l : List α) (i : Nat) (e e' : α)
    (h : l[i]? = some e) : (l.set i e')[i]? = some e' := by
  induction l generalizing i with
  | nil => simp at h
  | cons x t ih =>
    cases i with
    | zero => simp
    | succ n => simpa using ih n (by simpa using h)

theorem getElem?_set_other {α : Type} (l : List α) (i j : Nat) (e' : α)
    (h : i ≠ j) : (l.set i e')[j]? = l[j]? := by
  induction l generalizing i j with
  | nil => simp
  | cons x t ih =>
    cases i with
    | zero =>
      cases j with
      | zero => exact absurd rfl h
      | succ m => simp
    | succ n =>
      cases j with
      | zero => simp
      | succ m => simpa using ih n m (by omega)

theorem csub_eq_some {a b c : Nat} (h : csub a b = some c) : b ≤ a ∧ c = a - b := by
  unfold csub at h
  split at h <;> simp_all

theorem mul_div_le_of_le (x f d : Nat) (hd : 0 < d) (hf : f ≤ d) :
    x * f / d ≤ x := by
  have h1 : x * f ≤ d * x := by
    calc x * f ≤ x * d := Nat.mul_le_mul_left x hf
      _ = d * x := Nat.mul_comm x d
  calc x * f / d ≤ d * x / d := Nat.div_le_div_right h1
    _ = x := Nat.mul_div_cancel_left x hd

theorem completeEscrow_conserves (tok : TokenEnv) (s s' : ContractState) (id : Nat)
    (tr : List Eff) (h : completeEscrow tok s id = some (s', tr)) (hI : Conserved s) :
    Conserved s' := by
  unfold completeEscrow at h
  cases hx : s.escrows[id]? with
  | none => rw [hx] at h; exact Option.noConfusion h
  | some e =>
    rw [hx] at h
    dsimp only at h
    split at h
    · exact Option.noConfusion h
    rename_i hst
    split at h
    · exact Option.noConfusion h
    rename_i hdl
    split at h
    · exact Option.noConfusion h
    rename_i unusedAmount hcs1
    split at h
    · exact Option.noConfusion h
    rename_i diff hcs2
    split at h
    · exact Option.noConfusion h
    rename_i consumerRefund hcs3
    split at h
    · exact Option.noConfusion h
    rename_i hxfer
    simp only [Option.some.injEq, Prod.mk.injEq] at h
    obtain ⟨hs, htr⟩ := h
    subst hs
    obtain ⟨hu1, hu2⟩ := csub_eq_some hcs1
    obtain ⟨hf1, hf2⟩ := csub_eq_some hcs2
    obtain ⟨hp1, hp2⟩ := csub_eq_some hcs3
    have hstA : e.status = Status.Active := not_not.mp hst
    have hheld := heldSum_set s.escrows id e { e with status := Status.Completed } hx
    have hcon1 : heldContrib e = e.amount := by
      simp [heldContrib, hstA]
    have hcon2 : heldContrib { e with status := Status.Completed } = 0 := by
      simp [heldContrib]
    have hadd := sumBals_addBal s.providerBalances e.provider
      (diff + unusedAmount * s.unusedPenaltyBps / BPS_DENOMINATOR)
    unfold Conserved at hI ⊢
    dsimp only at hI ⊢
    omega

theorem createEscrow_conserves (s s' : ContractState) (caller p l a d : Nat) (tr : List Eff)
    (h : createEscrow s caller p l a d = some (s', tr)) (hI : Conserved s) : Conserved s' := by
  unfold createEscrow at h
  split at h
  · exact Option.noConfusion h
  split at h
  · exact Option.noConfusion h
  split at h
  · exact Option.noConfusion h
  split at h
  · exact Option.noConfusion h
  split at h
  · exact Option.noConfusion h
  split at h
  · exact Option.noConfusion h
  dsimp only at h
  simp only [Option.some.injEq, Prod.mk.injEq] at h
  obtain ⟨hs, htr⟩ := h
  subst hs
  unfold Conserved at hI ⊢
  dsimp only
  rw [heldSum_append]
  simp only [heldContrib]
  simp only [reduceCtorEq, or_self, if_false]
  omega

theorem fundEscrow_conserves (tok : TokenEnv) (s s' : ContractState) (caller id now : Nat)
    (tr : List Eff) (h : fundEscrow tok s caller id now = some (s', tr)) (hI : Conserved s) :
    Conserved s' := by
  unfold fundEscrow at h
  split at h
  · exact Option.noConfusion h
  cases hx : s.escrows[id]? with
  | none => rw [hx] at h; exact Option.noConfusion h
  | some e =>
    rw [hx] at h
    dsimp only at h
    split at h
    · exact Option.noConfusion h
    split at h
    · exact Option.noConfusion h
    rename_i hstP
    split at h
    · exact Option.noConfusion h
    simp only [Option.some.injEq, Prod.mk.injEq] at h
    obtain ⟨hs, htr⟩ := h
    subst hs
    have hP : e.status = Status.Pending := not_not.mp hstP
    have hheld := heldSum_set s.escrows id e
      { e with startTime := now, endTime := now + e.duration, status := Status.Funded } hx
    have hc1 : heldContrib e = 0 := by simp [heldContrib, hP]
    have hc2 : heldContrib
        { e with startTime := now, endTime := now + e.duration, status := Status.Funded }
        = e.amount := by simp [heldContrib]
    unfold Conserved at hI ⊢
    dsimp only at hI ⊢
    omega

theorem conserved_set_same (s : ContractState) (id : Nat) (e e' : EscrowRec)
    (hx : s.escrows[id]? = some e) (hc : heldContrib e' = heldContrib e)
    (hI : Conserved s) : Conserved { s with escrows := s.escrows.set id e' } := by
  have hheld := heldSum_set s.escrows id e e' hx
  unfold Conserved at hI ⊢
  dsimp only
  omega

theorem deliverKey_conserves (s s' : ContractState) (caller id kh : Nat) (tr : List Eff)
    (h : deliverKey s caller id kh = some (s', tr)) (hI : Conserved s) : Conserved s' := by
  unfold deliverKey at h
  split at h
  · exact Option.noConfusion h
  cases hx : s.escrows[id]? with
  | none => rw [hx] at h; exact Option.noConfusion h
  | some e =>
    rw [hx] at h
    dsimp only at h
    split at h
    · exact Option.noConfusion h
    split at h
    · exact Option.noConfusion h
    rename_i hstF
    split at h
    · exact Option.noConfusion h
    simp only [Option.some.injEq, Prod.mk.injEq] at h
    obtain ⟨hs, htr⟩ := h
    subst hs
    exact conserved_set_same s id e _ hx
      (by simp [heldContrib, not_not.mp hstF]) hI

theorem confirmKeyReceipt_conserves (s s' : ContractState) (caller id : Nat) (tr : List Eff)
    (h : confirmKeyReceipt s caller id = some (s', tr)) (hI : Conserved s) : Conserved s' := by
  unfold confirmKeyReceipt at h
  cases hx : s.escrows[id]? with
  | none => rw [hx] at h; exact Option.noConfusion h
  | some e =>
    rw [hx] at h
    dsimp only at h
    split at h
    · exact Option.noConfusion h
    split at h
    · exact Option.noConfusion h
    simp only [Option.some.injEq, Prod.mk.injEq] at h
    obtain ⟨hs, htr⟩ := h
    subst hs
    exact hI

theorem reportUsage_conserves (s s' : ContractState) (caller id usage now : Nat) (tr : List Eff)
    (h : reportUsage s caller id usage now = some (s', tr)) (hI : Conserved s) : Conserved s' := by
  unfold reportUsage at h
  split at h
  · exact Option.noConfusion h
  cases hx : s.escrows[id]? with
  | none => rw [hx] at h; exact Option.noConfusion h
  | some e =>
    rw [hx] at h
    dsimp only at h
    split at h
    · exact Option.noConfusion h
    split at h
    · exact Option.noConfusion h
    split at h
    · exact Option.noConfusion h
    split at h
    · -- consumer branch
      simp only [Option.some.injEq, Prod.mk.injEq] at h
      obtain ⟨hs, htr⟩ := h
      subst hs
      refine conserved_set_same s id e _ hx ?_ hI
      split <;> simp [heldContrib]
    · -- provider branch or revert
      split at h
      · split at h
        · exact Option.noConfusion h
        split at h
        · exact Option.noConfusion h
        simp only [Option.some.injEq, Prod.mk.injEq] at h
        obtain ⟨hs, htr⟩ := h
        subst hs
        refine conserved_set_same s id e _ hx ?_ hI
        split <;> simp [heldContrib]
      · exact Option.noConfusion h

theorem executeCompletion_conserves (tok : TokenEnv) (s s' : ContractState) (id now : Nat)
    (tr : List Eff) (h : executeCompletion tok s id now = some (s', tr)) (hI : Conserved s) :
    Conserved s' := by
  unfold executeCompletion at h
  split at h
  · exact Option.noConfusion h
  cases hx : s.escrows[id]? with
  | none => rw [hx] at h; exact Option.noConfusion h
  | some e =>
    rw [hx] at h
    dsimp only at h
    split at h
    · exact Option.noConfusion h
    split at h
    · exact Option.noConfusion h
    split at h
    · exact Option.noConfusion h
    exact completeEscrow_conserves tok s s' id tr h hI

theorem raiseDispute_conserves (s s' : ContractState) (caller id now : Nat) (tr : List Eff)
    (h : raiseDispute s caller id now = some (s', tr)) (hI : Conserved s) : Conserved s' := by
  unfold raiseDispute at h
  cases hx : s.escrows[id]? with
  | none => rw [hx] at h; exact Option.noConfusion h
  | some e =>
    rw [hx] at h
    dsimp only at h
    split at h
    · exact Option.noConfusion h
    rename_i hstA
    split at h
    · exact Option.noConfusion h
    split at h
    · exact Option.noConfusion h
    simp only [Option.some.injEq, Prod.mk.injEq] at h
    obtain ⟨hs, htr⟩ := h
    subst hs
    exact conserved_set_same s id e _ hx
      (by simp [heldContrib, not_not.mp hstA]) hI

theorem resolveDispute_conserves (tok : TokenEnv) (s s' : ContractState)
    (caller id pAmt cAmt : Nat) (tr : List Eff)
    (h : resolveDispute tok s caller id pAmt cAmt = some (s', tr)) (hI : Conserved s) :
    Conserved s' := by
  unfold resolveDispute at h
  split at h
  · exact Option.noConfusion h
  cases hx : s.escrows[id]? with
  | none => rw [hx] at h; exact Option.noConfusion h
  | some e =>
    rw [hx] at h
    dsimp only at h
    split at h
    · exact Option.noConfusion h
    rename_i hstD
    split at h
    · exact Option.noConfusion h
    rename_i hamt
    split at h
    · exact Option.noConfusion h
    simp only [Option.some.injEq, Prod.mk.injEq] at h
    obtain ⟨hs, htr⟩ := h
    subst hs
    have hD : e.status = Status.Disputed := not_not.mp hstD
    have hle : pAmt + cAmt ≤ e.amount := Nat.not_lt.mp hamt
    have hheld := heldSum_set s.escrows id e { e with status := Status.Completed } hx
    have hc1 : heldContrib e = e.amount := by simp [heldContrib, hD]
    have hc2 : heldContrib { e with status := Status.Completed } = 0 := by
      simp [heldContrib]
    unfold Conserved at hI ⊢
    dsimp only
    by_cases hpa : 0 < pAmt
    · rw [if_pos hpa]
      have hadd := sumBals_addBal s.providerBalances e.provider pAmt
      omega
    · rw [if_neg hpa]
      omega

theorem refundExpired_conserves (tok : TokenEnv) (s s' : ContractState) (id now : Nat)
    (tr : List Eff) (h : refundExpired tok s id now = some (s', tr)) (hI : Conserved s) :
    Conserved s' := by
  unfold refundExpired at h
  split at h
  · exact Option.noConfusion h
  cases hx : s.escrows[id]? with
  | none => rw [hx] at h; exact Option.noConfusion h
  | some e =>
    rw [hx] at h
    dsimp only at h
    split at h
    · exact Option.noConfusion h
    rename_i hstF
    split at h
    · exact Option.noConfusion h
    split at h
    · exact Option.noConfusion h
    simp only [Option.some.injEq, Prod.mk.injEq] at h
    obtain ⟨hs, htr⟩ := h
    subst hs
    have hF : e.status = Status.Funded := not_not.mp hstF
    have hheld := heldSum_set s.escrows id e { e with status := Status.Refunded } hx
    have hc1 : heldContrib e = e.amount := by simp [heldContrib, hF]
    have hc2 : heldContrib { e with status := Status.Refunded } = 0 := by
      simp [heldContrib]
    unfold Conserved at hI ⊢
    dsimp only
    omega

theorem autoComplete_conserves (tok : TokenEnv) (s s' : ContractState) (id now : Nat)
    (tr : List Eff) (h : autoComplete tok s id now = some (s', tr)) (hI : Conserved s) :
    Conserved s' := by
  unfold autoComplete at h
  split at h
  · exact Option.noConfusion h
  cases hx : s.escrows[id]? with
  | none => rw [hx] at h; exact Option.noConfusion h
  | some e =>
    rw [hx] at h
    dsimp only at h
    split at h
    · exact Option.noConfusion h
    split at h
    · exact Option.noConfusion h
    split at h
    · exact Option.noConfusion h
    exact completeEscrow_conserves tok _ s' id tr h
      (conserved_set_same s id e _ hx (by simp [heldContrib]) hI)

theorem withdrawProviderBalance_conserves (tok : TokenEnv) (s s' : ContractState) (caller : Nat)
    (tr : List Eff) (h : withdrawProviderBalance tok s caller = some (s', tr))
    (hI : Conserved s) : Conserved s' := by
  unfold withdrawProviderBalance at h
  dsimp only at h
  split at h
  · exact Option.noConfusion h
  split at h
  · exact Option.noConfusion h
  simp only [Option.some.injEq, Prod.mk.injEq] at h
  obtain ⟨hs, htr⟩ := h
  subst hs
  have hzero := sumBals_zeroBal s.providerBalances caller
  unfold Conserved at hI ⊢
  dsimp only
  omega

theorem withdrawPlatformFees_conserves (tok : TokenEnv) (s s' : ContractState) (caller : Nat)
    (tr : List Eff) (h : withdrawPlatformFees tok s caller = some (s', tr))
    (hI : Conserved s) : Conserved s' := by
  unfold withdrawPlatformFees at h
  split at h
  · exact Option.noConfusion h
  dsimp only at h
  split at h
  · exact Option.noConfusion h
  split at h
  · exact Option.noConfusion h
  simp only [Option.some.injEq, Prod.mk.injEq] at h
  obtain ⟨hs, htr⟩ := h
  subst hs
  unfold Conserved at hI ⊢
  dsimp only
  omega

theorem emergencyRefund_conserves (tok : TokenEnv) (s s' : ContractState) (caller id : Nat)
    (tr : List Eff) (h : emergencyRefund tok s caller id = some (s', tr))
    (hI : Conserved s) : Conserved s' := by
  unfold emergencyRefund at h
  split at h
  · exact Option.noConfusion h
  split at h
  · exact Option.noConfusion h
  cases hx : s.escrows[id]? with
  | none => rw [hx] at h; exact Option.noConfusion h
  | some e =>
    rw [hx] at h
    dsimp only at h
    split at h
    · exact Option.noConfusion h
    rename_i hstFA
    split at h
    · exact Option.noConfusion h
    split at h
    · exact Option.noConfusion h
    simp only [Option.some.injEq, Prod.mk.injEq] at h
    obtain ⟨hs, htr⟩ := h
    subst hs
    have hFA : e.status = Status.Funded ∨ e.status = Status.Active := not_not.mp hstFA
    have hheld := heldSum_set s.escrows id e { e with status := Status.Refunded } hx
    have hc1 : heldContrib e = e.amount := by
      rcases hFA with hF | hA
      · simp [heldContrib, hF]
      · simp [heldContrib, hA]
    have hc2 : heldContrib { e with status := Status.Refunded } = 0 := by
      simp [heldContrib]
    unfold Conserved at hI ⊢
    dsimp only
    omega

theorem scheduleFeeUpdate_conserves (s s' : ContractState) (caller p u now : Nat)
    (tr : List Eff) (h : scheduleFeeUpdate s caller p u now = some (s', tr))
    (hI : Conserved s) : Conserved s' := by
  unfold scheduleFeeUpdate at h
  split at h
  · exact Option.noConfusion h
  split at h
  · exact Option.noConfusion h
  split at h
  · exact Option.noConfusion h
  split at h
  · exact Option.noConfusion h
  simp only [Option.some.injEq, Prod.mk.injEq] at h
  obtain ⟨hs, htr⟩ := h
  subst hs
  exact hI

theorem executeFeeUpdate_conserves (s s' : ContractState) (now : Nat)
    (tr : List Eff) (h : executeFeeUpdate s now = some (s', tr))
    (hI : Conserved s) : Conserved s' := by
  unfold executeFeeUpdate at h
  split at h
  · exact Option.noConfusion h
  split at h
  · exact Option.noConfusion h
  simp only [Option.some.injEq, Prod.mk.injEq] at h
  obtain ⟨hs, htr⟩ := h
  subst hs
  exact hI

theorem cancelFeeUpdate_conserves (s s' : ContractState) (caller : Nat)
    (tr : List Eff) (h : cancelFeeUpdate s caller = some (s', tr))
    (hI : Conserved s) : Conserved s' := by
  unfold cancelFeeUpdate at h
  split at h
  · exact Option.noConfusion h
  split at h
  · exact Option.noConfusion h
  simp only [Option.some.injEq, Prod.mk.injEq] at h
  obtain ⟨hs, htr⟩ := h
  subst hs
  exact hI

theorem pause_conserves (s s' : ContractState) (caller : Nat)
    (tr : List Eff) (h : pause s caller = some (s', tr))
    (hI : Conserved s) : Conserved s' := by
  unfold pause at h
  split at h
  · exact Option.noConfusion h
  simp only [Option.some.injEq, Prod.mk.injEq] at h
  obtain ⟨hs, htr⟩ := h
  subst hs
  exact hI

theorem scheduleUnpause_conserves (s s' : ContractState) (caller now : Nat)
    (tr : List Eff) (h : scheduleUnpause s caller now = some (s', tr))
    (hI : Conserved s) : Conserved s' := by
  unfold scheduleUnpause at h
  split at h
  · exact Option.noConfusion h
  split at h
  · exact Option.noConfusion h
  split at h
  · exact Option.noConfusion h
  simp only [Option.some.injEq, Prod.mk.injEq] at h
  obtain ⟨hs, htr⟩ := h
  subst hs
  exact hI

theorem unpause_conserves (s s' : ContractState) (now : Nat)
    (tr : List Eff) (h : unpause s now = some (s', tr))
    (hI : Conserved s) : Conserved s' := by
  unfold unpause at h
  split at h
  · exact Option.noConfusion h
  split at h
  · exact Option.noConfusion h
  split at h
  · exact Option.noConfusion h
  simp only [Option.some.injEq, Prod.mk.injEq] at h
  obtain ⟨hs, htr⟩ := h
  subst hs
  exact hI

theorem setMaxEscrowAmount_conserves (s s' : ContractState) (caller m : Nat)
    (tr : List Eff) (h : setMaxEscrowAmount s caller m = some (s', tr))
    (hI : Conserved s) : Conserved s' := by
  unfold setMaxEscrowAmount at h
  split at h
  · exact Option.noConfusion h
  split at h
  · exact Option.noConfusion h
  simp only [Option.some.injEq, Prod.mk.injEq] at h
  obtain ⟨hs, htr⟩ := h
  subst hs
  exact hI

theorem setCompletionDelay_conserves (s s' : ContractState) (caller d : Nat)
    (tr : List Eff) (h : setCompletionDelay s caller d = some (s', tr))
    (hI : Conserved s) : Conserved s' := by
  unfold setCompletionDelay at h
  split at h
  · exact Option.noConfusion h
  simp only [Option.some.injEq, Prod.mk.injEq] at h
  obtain ⟨hs, htr⟩ := h
  subst hs
  exact hI

theorem exec_conserves (tok : TokenEnv) (s s' : ContractState) (a : Act) (tr : List Eff)
    (h : exec tok s a = some (s', tr)) (hI : Conserved s) : Conserved s' := by
  cases a with
  | create caller p l am d => exact createEscrow_conserves s s' caller p l am d tr h hI
  | fund caller id now => exact fundEscrow_conserves tok s s' caller id now tr h hI
  | deliver caller id kh => exact deliverKey_conserves s s' caller id kh tr h hI
  | confirmKey caller id => exact confirmKeyReceipt_conserves s s' caller id tr h hI
  | report caller id usage now => exact reportUsage_conserves s s' caller id usage now tr h hI
  | execComplete id now => exact executeCompletion_conserves tok s s' id now tr h hI
  | dispute caller id now => exact raiseDispute_conserves s s' caller id now tr h hI
  | resolve caller id pa ca => exact resolveDispute_conserves tok s s' caller id pa ca tr h hI
  | refundExp id now => exact refundExpired_conserves tok s s' id now tr h hI
  | autoComp id now => exact autoComplete_conserves tok s s' id now tr h hI
  | withdrawProvider caller => exact withdrawProviderBalance_conserves tok s s' caller tr h hI
  | withdrawFees caller => exact withdrawPlatformFees_conserves tok s s' caller tr h hI
  | schedFee caller p u now => exact scheduleFeeUpdate_conserves s s' caller p u now tr h hI
  | execFee now => exact executeFeeUpdate_conserves s s' now tr h hI
  | cancelFee caller => exact cancelFeeUpdate_conserves s s' caller tr h hI
  | doPause caller => exact pause_conserves s s' caller tr h hI
  | schedUnpause caller now => exact scheduleUnpause_conserves s s' caller now tr h hI
  | doUnpause now => exact unpause_conserves s s' now tr h hI
  | setMax caller m => exact setMaxEscrowAmount_conserves s s' caller m tr h hI
  | setDelay caller d => exact setCompletionDelay_conserves s s' caller d tr h hI
  | emergency caller id => exact emergencyRefund_conserves tok s s' caller id tr h hI

theorem reachable_conserved (s : ContractState) (h : Reachable s) : Conserved s := by
  induction h with
  | init d =>
    unfold Conserved initState
    simp [sumBals, heldSum]
  | step hs hstep ih => exact exec_conserves _ _ _ _ _ hstep ih

theorem completeEscrow_balance_eq (tok : TokenEnv) (s s' : ContractState) (id : Nat)
    (tr : List Eff) (e : EscrowRec) (hx : s.escrows[id]? = some e)
    (h : completeEscrow tok s id = some (s', tr)) :
    getBal s'.providerBalances e.provider + s'.accumulatedPlatformFees + s'.refundsPaid
      = getBal s.providerBalances e.provider + s.accumulatedPlatformFees +
          s.refundsPaid + e.amount := by
  unfold completeEscrow at h
  rw [hx] at h
  dsimp only at h
  split at h
  · exact Option.noConfusion h
  split at h
  · exact Option.noConfusion h
  split at h
  · exact Option.noConfusion h
  rename_i unusedAmount hcs1
  split at h
  · exact Option.noConfusion h
  rename_i diff hcs2
  split at h
  · exact Option.noConfusion h
  rename_i consumerRefund hcs3
  split at h
  · exact Option.noConfusion h
  simp only [Option.some.injEq, Prod.mk.injEq] at h
  obtain ⟨hs, htr⟩ := h
  subst hs
  obtain ⟨hu1, hu2⟩ := csub_eq_some hcs1
  obtain ⟨hf1, hf2⟩ := csub_eq_some hcs2
  obtain ⟨hp1, hp2⟩ := csub_eq_some hcs3
  have hadd := getBal_addBal s.providerBalances e.provider
    (diff + unusedAmount * s.unusedPenaltyBps / BPS_DENOMINATOR)
  dsimp only
  omega

/-- C1: for every `amount`, `usageLimit > 0`, `usage ≤ usageLimit`, and every
fee configuration reachable in the contract (`platformFeeBps ≤ 500`,
`unusedPenaltyBps ≤ 2000`), `calculateDistribution` succeeds and its
`providerAmount + consumerRefund + platformFee` equals `amount` exactly; and
likewise, at whatever escrow the settlement in `_completeEscrow` (via
`executeCompletion`) succeeds on, the provider credit, the accrued platform
fee and the consumer refund transferred out sum to exactly the escrow's
`amount` — no units are lost to truncation. -/
theorem C1_settlement_conserves_amount (f p a L u : Nat) (hL : 0 < L) (hu : u ≤ L)
    (hf : f ≤ 500) (hp : p ≤ 2000) :
    (∃ pa cr pf pen, calculateDistribution f p a L u = some (pa, cr, pf, pen) ∧
        pa + cr + pf = a) ∧
    (∀ tok s id now s' tr e, s.escrows[id]? = some e →
        executeCompletion tok s id now = some (s', tr) →
        getBal s'.providerBalances e.provider + s'.accumulatedPlatformFees + s'.refundsPaid
          = getBal s.providerBalances e.provider + s.accumulatedPlatformFees +
              s.refundsPaid + e.amount) := by
  constructor
  · have hused : a * u / L ≤ a := mul_div_le_of_le a u L hL hu
    have hfee : a * u / L * f / BPS_DENOMINATOR ≤ a * u / L :=
      mul_div_le_of_le (a * u / L) f BPS_DENOMINATOR (by norm_num [BPS_DENOMINATOR])
        (by unfold BPS_DENOMINATOR; omega)
    have hpen : (a - a * u / L) * p / BPS_DENOMINATOR ≤ a - a * u / L :=
      mul_div_le_of_le (a - a * u / L) p BPS_DENOMINATOR (by norm_num [BPS_DENOMINATOR])
        (by unfold BPS_DENOMINATOR; omega)
    refine ⟨a * u / L - a * u / L * f / BPS_DENOMINATOR +
              (a - a * u / L) * p / BPS_DENOMINATOR,
            (a - a * u / L) - (a - a * u / L) * p / BPS_DENOMINATOR,
            a * u / L * f / BPS_DENOMINATOR,
            (a - a * u / L) * p / BPS_DENOMINATOR, ?_, ?_⟩
    · unfold calculateDistribution csub
      rw [if_neg (by omega : ¬ L = 0)]
      dsimp only
      rw [if_pos hused]
      dsimp only
      rw [if_pos hfee]
      dsimp only
      rw [if_pos hpen]
    · omega
  · intro tok s id now s' tr e hx h
    unfold executeCompletion at h
    split at h
    · exact Option.noConfusion h
    rw [hx] at h
    dsimp only at h
    split at h
    · exact Option.noConfusion h
    split at h
    · exact Option.noConfusion h
    split at h
    · exact Option.noConfusion h
    exact completeEscrow_balance_eq tok s s' id tr e hx h

/-- Witness for C1 at the spec's example input. -/
theorem C1_settlement_conserves_amount_witness :
    ∃ pa cr pf pen, calculateDistribution 100 500 950000 100 50 =
        some (pa, cr, pf, pen) ∧ pa + cr + pf = 950000 :=
  (C1_settlement_conserves_amount 100 500 950000 100 50 (by decide) (by decide)
    (by decide) (by decide)).1

/-- C4: for every `amount`, `usageLimit > 0`, `0 ≤ usage ≤ usageLimit` and
contract-reachable fee configuration, `calculateDistribution` computes exactly
the spec's reference formulas (`specDistribution`); in particular, with
`platformFeeBps = 100` and `unusedPenaltyBps = 500`, input (950000, 100, 50)
yields providerAmount 494000, consumerRefund 451250, platformFee 4750,
penaltyAmount 23750. -/
theorem C4_matches_spec_formulas (f p a L u : Nat) (hL : 0 < L) (hu : u ≤ L)
    (hf : f ≤ 500) (hp : p ≤ 2000) :
    calculateDistribution f p a L u = some (specDistribution a L u f p) ∧
    calculateDistribution 100 500 950000 100 50 =
      some (494000, 451250, 4750, 23750) := by
  constructor
  · have hused : a * u / L ≤ a := mul_div_le_of_le a u L hL hu
    have hfee : a * u / L * f / BPS_DENOMINATOR ≤ a * u / L :=
      mul_div_le_of_le (a * u / L) f BPS_DENOMINATOR (by norm_num [BPS_DENOMINATOR])
        (by unfold BPS_DENOMINATOR; omega)
    have hpen : (a - a * u / L) * p / BPS_DENOMINATOR ≤ a - a * u / L :=
      mul_div_le_of_le (a - a * u / L) p BPS_DENOMINATOR (by norm_num [BPS_DENOMINATOR])
        (by unfold BPS_DENOMINATOR; omega)
    unfold calculateDistribution csub
    rw [if_neg (by omega : ¬ L = 0)]
    dsimp only
    rw [if_pos hused]
    dsimp only
    rw [if_pos hfee]
    dsimp only
    rw [if_pos hpen]
    unfold specDistribution BPS_DENOMINATOR
    rfl
  · decide

/-- Witness for C4 at the spec's example input. -/
theorem C4_matches_spec_formulas_witness :
    calculateDistribution 100 500 950000 100 50 =
      some (specDistribution 950000 100 50 100 500) :=
  (C4_matches_spec_formulas 100 500 950000 100 50 (by decide) (by decide)
    (by decide) (by decide)).1

/-- C3: in every reachable state of the ledger - under every sequence of
contract calls - the sum of all provider balances, plus the accumulated
platform fees, plus every consumer-refund amount already transferred out,
never exceeds the total tokens deposited via `fundEscrow`. -/
theorem C3_conservation_of_value (s : ContractState) (h : Reachable s) :
    sumBals s.providerBalances + s.accumulatedPlatformFees + s.refundsPaid ≤
      s.totalDeposited := by
  have hc := reachable_conserved s h
  unfold Conserved at hc
  omega

/-- Witness for C3 at the deployment state. -/
theorem C3_conservation_of_value_witness :
    sumBals (initState 1).providerBalances + (initState 1).accumulatedPlatformFees +
      (initState 1).refundsPaid ≤ (initState 1).totalDeposited :=
  C3_conservation_of_value (initState 1) (Reachable.init 1)

/-- C2: if `executeCompletion` succeeds on an escrow, a second completion call
on the same escrow reverts - for any token environment and any later time -
so the provider balances, platform fees and the escrow record cannot change
again through settlement (a revert changes no state in this model, making
exactly one of two racing calls succeed); moreover the settlement required
status Active and, in the effect trace, wrote status = Completed strictly
before the external token transfer. -/
theorem C2_no_double_settlement (tok tok' : TokenEnv) (s s' : ContractState)
    (id now now' : Nat) (tr : List Eff)
    (h : executeCompletion tok s id now = some (s', tr)) :
    executeCompletion tok' s' id now' = none ∧
    writeBeforeTransfers (Eff.statusWrite id Status.Completed) tr = true ∧
    (∀ e, s.escrows[id]? = some e → e.status = Status.Active) := by
  unfold executeCompletion at h
  split at h
  · exact Option.noConfusion h
  cases hx : s.escrows[id]? with
  | none => rw [hx] at h; exact Option.noConfusion h
  | some e =>
    rw [hx] at h
    dsimp only at h
    split at h
    · exact Option.noConfusion h
    rename_i hstA
    split at h
    · exact Option.noConfusion h
    split at h
    · exact Option.noConfusion h
    unfold completeEscrow at h
    rw [hx] at h
    dsimp only at h
    split at h
    · exact Option.noConfusion h
    split at h
    · exact Option.noConfusion h
    split at h
    · exact Option.noConfusion h
    rename_i unusedAmount hcs1
    split at h
    · exact Option.noConfusion h
    rename_i diff hcs2
    split at h
    · exact Option.noConfusion h
    rename_i consumerRefund hcs3
    split at h
    · exact Option.noConfusion h
    simp only [Option.some.injEq, Prod.mk.injEq] at h
    obtain ⟨hs, htr⟩ := h
    subst hs
    refine ⟨?_, ?_, ?_⟩
    · unfold executeCompletion
      split
      · rfl
      have hset := getElem?_set_same s.escrows id e
        { e with status := Status.Completed } hx
      dsimp only
      rw [hset]
      dsimp only
      rw [if_pos (by simp)]
    · subst htr
      simp [writeBeforeTransfers, isTransferOut]
    · intro e2 hx2
      injection hx2 with hx2
      subst hx2
      exact not_not.mp hstA

/-- Witness for C2: a concrete successful completion, after which a second
call reverts. -/
theorem C2_no_double_settlement_witness :
    executeCompletion tokAll sCompleted 0 7000 = none :=
  (C2_no_double_settlement tokAll tokAll sBoth sCompleted 0 6000 7000 trCompleted
    (by decide)).1

/-- C5: a provider attestation (`reportUsage` called by the provider) succeeds
only if the consumer has already confirmed and the submitted usage equals the
stored `reportedUsage`; a provider report of a different number reverts
("Usage mismatch"), and a revert changes no state in this model, so the
escrow stays Active with `providerConfirmed` false and no unlock time set. -/
theorem C5_provider_attestation_guard (s : ContractState) (id usage now : Nat)
    (e : EscrowRec) (hx : s.escrows[id]? = some e)
    (hne : e.provider ≠ e.consumer) :
    (∀ s' tr, reportUsage s e.provider id usage now = some (s', tr) →
        e.consumerConfirmed = true ∧ e.reportedUsage = usage) ∧
    (e.reportedUsage ≠ usage → reportUsage s e.provider id usage now = none) := by
  constructor
  · intro s' tr h
    by_cases hcc : e.consumerConfirmed = true
    · by_cases hmatch : e.reportedUsage = usage
      · exact ⟨hcc, hmatch⟩
      · exfalso
        have hnone : reportUsage s e.provider id usage now = none := by
          simp [reportUsage, hx, hne, hmatch, ite_self]
        rw [hnone] at h
        exact Option.noConfusion h
    · exfalso
      have hccf : e.consumerConfirmed = false := by
        cases hb : e.consumerConfirmed
        · rfl
        · exact absurd hb hcc
      have hnone : reportUsage s e.provider id usage now = none := by
        simp [reportUsage, hx, hne, hccf, ite_self]
      rw [hnone] at h
      exact Option.noConfusion h
  · intro hmm
    simp [reportUsage, hx, hne, hmm, ite_self]

/-- Witness for C5: concrete mismatching provider report reverts. -/
theorem C5_provider_attestation_guard_witness :
    reportUsage sBoth eBoth.provider 0 60 100 = none :=
  (C5_provider_attestation_guard sBoth 0 60 100 eBoth (by decide) (by decide)).2
    (by decide)

/-- C6: `withdrawProviderBalance` succeeds only with a positive balance,
zeroes the balance (writing it before the external transfer, per the effect
trace), pays out exactly the prior balance, and a second call by the same
provider reverts - so two successive calls pay out at most the starting
balance; if the token transfer fails the whole call reverts (returns `none`,
leaving the balance untouched in this model). -/
theorem C6_withdraw_once (tok tok' : TokenEnv) (s s' : ContractState) (caller : Nat)
    (tr : List Eff) (h : withdrawProviderBalance tok s caller = some (s', tr)) :
    0 < getBal s.providerBalances caller ∧
    getBal s'.providerBalances caller = 0 ∧
    paidOut tr = getBal s.providerBalances caller ∧
    writeBeforeTransfers (Eff.balWrite caller 0) tr = true ∧
    withdrawProviderBalance tok' s' caller = none ∧
    (∀ tok2 : TokenEnv, tok2.transferOk caller (getBal s.providerBalances caller) = false →
        withdrawProviderBalance tok2 s caller = none) := by
  unfold withdrawProviderBalance at h
  dsimp only at h
  split at h
  · exact Option.noConfusion h
  rename_i hpos
  split at h
  · exact Option.noConfusion h
  simp only [Option.some.injEq, Prod.mk.injEq] at h
  obtain ⟨hs, htr⟩ := h
  subst hs
  subst htr
  have hz := getBal_zeroBal s.providerBalances caller
  refine ⟨by omega, ?_, ?_, ?_, ?_, ?_⟩
  · exact hz
  · simp [paidOut]
  · simp [writeBeforeTransfers]
  · unfold withdrawProviderBalance
    dsimp only
    rw [if_pos hz]
  · intro tok2 hfail
    unfold withdrawProviderBalance
    dsimp only
    rw [if_neg hpos, if_pos hfail]

/-- Witness for C6: a provider with balance 5 withdraws it. -/
theorem C6_withdraw_once_witness :
    withdrawProviderBalance tokAll
      ({ initState 1 with providerBalances := [(2, 0)] }) 2 = none :=
  (C6_withdraw_once tokAll tokAll { initState 1 with providerBalances := [(2, 5)] }
    { initState 1 with providerBalances := [(2, 0)] } 2
    [Eff.balWrite 2 0, Eff.transferOut 2 5] (by decide)).2.2.2.2.1

/-- C7: `refundExpired` succeeds only on a Funded escrow after the
key-delivery grace has elapsed since `startTime`; `autoComplete` succeeds
only on an Active escrow with `consumerConfirmed = false` after the
post-endTime grace; on a Completed or Refunded escrow both revert (and a
revert changes no state in this model). -/
theorem C7_timeout_exclusivity (tok : TokenEnv) (s : ContractState) (id now : Nat)
    (e : EscrowRec) (hx : s.escrows[id]? = some e) :
    (∀ s' tr, refundExpired tok s id now = some (s', tr) →
        e.status = Status.Funded ∧ e.startTime + 3600 < now) ∧
    (∀ s' tr, autoComplete tok s id now = some (s', tr) →
        e.status = Status.Active ∧ e.consumerConfirmed = false ∧
          e.endTime + 7200 < now) ∧
    (e.status = Status.Completed ∨ e.status = Status.Refunded →
        refundExpired tok s id now = none ∧ autoComplete tok s id now = none) := by
  refine ⟨?_, ?_, ?_⟩
  · intro s' tr h
    unfold refundExpired at h
    split at h
    · exact Option.noConfusion h
    rw [hx] at h
    dsimp only at h
    split at h
    · exact Option.noConfusion h
    rename_i hstF
    split at h
    · exact Option.noConfusion h
    rename_i htime
    exact ⟨not_not.mp hstF, not_not.mp htime⟩
  · intro s' tr h
    unfold autoComplete at h
    split at h
    · exact Option.noConfusion h
    rw [hx] at h
    dsimp only at h
    split at h
    · exact Option.noConfusion h
    rename_i hstA
    split at h
    · exact Option.noConfusion h
    rename_i htime
    split at h
    · exact Option.noConfusion h
    rename_i hcc
    refine ⟨not_not.mp hstA, ?_, not_not.mp htime⟩
    cases hcc2 : e.consumerConfirmed with
    | false => rfl
    | true => exact absurd hcc2 hcc
  · intro hdone
    have hstF : e.status ≠ Status.Funded := by
      rcases hdone with h1 | h1 <;> simp [h1]
    have hstA : e.status ≠ Status.Active := by
      rcases hdone with h1 | h1 <;> simp [h1]
    constructor
    · unfold refundExpired
      split
      · rfl
      rw [hx]
      dsimp only
      rw [if_pos hstF]
    · unfold autoComplete
      split
      · rfl
      rw [hx]
      dsimp only
      rw [if_pos hstA]

/-- Witness for C7: on the completed escrow both fallbacks revert. -/
theorem C7_timeout_exclusivity_witness :
    refundExpired tokAll sCompleted 0 999999 = none ∧
    autoComplete tokAll sCompleted 0 999999 = none :=
  (C7_timeout_exclusivity tokAll sCompleted 0 999999
    { eBoth with status := Status.Completed } (by decide)).2.2 (Or.inl (by decide))

/-- C8 counterexample: while paused, `setMaxEscrowAmount` - an owner-only
state-mutating entry point outside the dispute-resolution and withdrawal
paths - succeeds and changes contract state, so not every state-mutating
entry point outside those excepted paths reverts while paused. -/
theorem C8_counterexample_admin_mutation_while_paused :
    pausedInit.paused = true ∧
    setMaxEscrowAmount pausedInit 1 2000000 = some (maxChangedInit, []) ∧
    maxChangedInit.maxEscrowAmount ≠ pausedInit.maxEscrowAmount := by
  refine ⟨rfl, ?_, by decide⟩
  decide

/-- C8 (amended): while paused, the escrow lifecycle entry points -
`createEscrow`, `fundEscrow`, `deliverKey`, `reportUsage`,
`executeCompletion`, `refundExpired` and `autoComplete` - revert for every
caller and every escrow; the dispute paths, the withdrawal paths, and the
owner's administrative entry points (fee timelock, pause management,
`setMaxEscrowAmount`, `setCompletionDelay`, `emergencyRefund`) are the ones
that remain callable. -/
theorem C8_paused_blocks_lifecycle (tok : TokenEnv) (s : ContractState)
    (hp : s.paused = true) :
    (∀ caller p l a d, createEscrow s caller p l a d = none) ∧
    (∀ caller id now, fundEscrow tok s caller id now = none) ∧
    (∀ caller id kh, deliverKey s caller id kh = none) ∧
    (∀ caller id usage now, reportUsage s caller id usage now = none) ∧
    (∀ id now, executeCompletion tok s id now = none) ∧
    (∀ id now, refundExpired tok s id now = none) ∧
    (∀ id now, autoComplete tok s id now = none) := by
  refine ⟨?_, ?_, ?_, ?_, ?_, ?_, ?_⟩ <;> intros <;>
    simp [createEscrow, fundEscrow, deliverKey, reportUsage, executeCompletion,
      refundExpired, autoComplete, hp]

/-- Witness for C8 (amended) at the concrete paused deployment state. -/
theorem C8_paused_blocks_lifecycle_witness :
    createEscrow pausedInit 2 3 5 1000 0 = none ∧
    autoComplete tokAll pausedInit 0 999999 = none :=
  ⟨(C8_paused_blocks_lifecycle tokAll pausedInit rfl).1 2 3 5 1000 0,
   (C8_paused_blocks_lifecycle tokAll pausedInit rfl).2.2.2.2.2.2 0 999999⟩

/-- C9: on an Active escrow where both parties already confirmed
(`completionUnlockTime` set) and the reporting window is still open, a
further consumer `reportUsage` with any value ≤ `diemLimit` succeeds and
overwrites `reportedUsage`, while `providerConfirmed` stays true and
`completionUnlockTime` is unchanged (both kept verbatim from the old record
in the result); a subsequent successful `executeCompletion` then credits the
provider and refunds the consumer according to the overwritten value. -/
theorem C9_consumer_overwrite_after_both_confirmed
    (s : ContractState) (id usage2 now : Nat) (e : EscrowRec)
    (hx : s.escrows[id]? = some e) (hpause : s.paused = false)
    (hst : e.status = Status.Active) (_hcc : e.consumerConfirmed = true)
    (hpc : e.providerConfirmed = true) (hun : 0 < e.completionUnlockTime)
    (hwin : now ≤ e.endTime + 3600) (husage : usage2 ≤ e.diemLimit) :
    reportUsage s e.consumer id usage2 now =
      some ({ s with escrows := s.escrows.set id
                               { e with reportedUsage := usage2,
                                        consumerConfirmed := true } }, []) ∧
    (∀ tok now2 s' tr, executeCompletion tok
          { s with escrows := s.escrows.set id
                               { e with reportedUsage := usage2,
                                        consumerConfirmed := true } } id now2
          = some (s', tr) →
        getBal s'.providerBalances e.provider =
          getBal s.providerBalances e.provider +
            (e.amount * usage2 / e.diemLimit
              - e.amount * usage2 / e.diemLimit * s.platformFeeBps / BPS_DENOMINATOR
              + (e.amount - e.amount * usage2 / e.diemLimit) * s.unusedPenaltyBps
                  / BPS_DENOMINATOR) ∧
        s'.refundsPaid = s.refundsPaid +
            ((e.amount - e.amount * usage2 / e.diemLimit)
              - (e.amount - e.amount * usage2 / e.diemLimit) * s.unusedPenaltyBps
                  / BPS_DENOMINATOR)) := by
  constructor
  · have hnwin : ¬ (e.endTime + 3600 < now) := by omega
    have hnlim : ¬ (e.diemLimit < usage2) := by omega
    have hnun : ¬ (e.completionUnlockTime = 0) := by omega
    simp [reportUsage, hx, hpause, hst, hpc, hnwin, hnlim, hnun]
  · intro tok now2 s' tr h
    unfold executeCompletion at h
    split at h
    · exact Option.noConfusion h
    have hset := getElem?_set_same s.escrows id e
      { e with reportedUsage := usage2, consumerConfirmed := true } hx
    rw [hset] at h
    dsimp only at h
    split at h
    · exact Option.noConfusion h
    split at h
    · exact Option.noConfusion h
    split at h
    · exact Option.noConfusion h
    unfold completeEscrow at h
    rw [hset] at h
    dsimp only at h
    split at h
    · exact Option.noConfusion h
    split at h
    · exact Option.noConfusion h
    split at h
    · exact Option.noConfusion h
    rename_i unusedAmount hcs1
    split at h
    · exact Option.noConfusion h
    rename_i diff hcs2
    split at h
    · exact Option.noConfusion h
    rename_i consumerRefund hcs3
    split at h
    · exact Option.noConfusion h
    simp only [Option.some.injEq, Prod.mk.injEq] at h
    obtain ⟨hs, htr⟩ := h
    subst hs
    obtain ⟨hu1, hu2⟩ := csub_eq_some hcs1
    obtain ⟨hf1, hf2⟩ := csub_eq_some hcs2
    obtain ⟨hp1, hp2⟩ := csub_eq_some hcs3
    subst hu2
    subst hf2
    subst hp2
    have hadd := getBal_addBal s.providerBalances e.provider
      (e.amount * usage2 / e.diemLimit
          - e.amount * usage2 / e.diemLimit * s.platformFeeBps / BPS_DENOMINATOR
        + (e.amount - e.amount * usage2 / e.diemLimit) * s.unusedPenaltyBps
            / BPS_DENOMINATOR)
    dsimp only
    constructor
    · omega
    · omega

/-- Witness for C9: the consumer overwrites 50 with 80 on `sBoth`. -/
theorem C9_consumer_overwrite_witness :
    reportUsage sBoth eBoth.consumer 0 80 100 =
      some ({ sBoth with escrows := [{ eBoth with reportedUsage := 80,
                                                  consumerConfirmed := true }] },
            []) :=
  (C9_consumer_overwrite_after_both_confirmed sBoth 0 80 100 eBoth (by decide)
    (by decide) (by decide) (by decide) (by decide) (by decide) (by decide)
    (by decide)).1

theorem getElem?_append_left {α : Type} (l l2 : List α) (i : Nat) (e : α)
    (h : l[i]? = some e) : (l ++ l2)[i]? = some e := by
  induction l generalizing i with
  | nil => simp at h
  | cons x t ih =>
    cases i with
    | zero => simpa using h
    | succ n => simpa using ih n (by simpa using h)

theorem reportUsage_shape (s s' : ContractState) (caller id usage now : Nat)
    (tr : List Eff) (h : reportUsage s caller id usage now = some (s', tr)) :
    ∃ e0 rec, s.escrows[id]? = some e0 ∧ s'.escrows = s.escrows.set id rec ∧
      rec.status = e0.status := by
  unfold reportUsage at h
  split at h
  · exact Option.noConfusion h
  cases hx : s.escrows[id]? with
  | none => rw [hx] at h; exact Option.noConfusion h
  | some e =>
    rw [hx] at h
    dsimp only at h
    split at h
    · exact Option.noConfusion h
    split at h
    · exact Option.noConfusion h
    split at h
    · exact Option.noConfusion h
    split at h
    · simp only [Option.some.injEq, Prod.mk.injEq] at h
      obtain ⟨hs, htr⟩ := h
      subst hs
      refine ⟨e, _, rfl, rfl, ?_⟩
      split <;> rfl
    · split at h
      · split at h
        · exact Option.noConfusion h
        split at h
        · exact Option.noConfusion h
        simp only [Option.some.injEq, Prod.mk.injEq] at h
        obtain ⟨hs, htr⟩ := h
        subst hs
        refine ⟨e, _, rfl, rfl, ?_⟩
        split <;> rfl
      · exact Option.noConfusion h

set_option maxHeartbeats 2000000 in
/-- C10: an Active escrow with `consumerConfirmed = true` and
`providerConfirmed = false` cannot be settled by any timeout or settlement
path: `autoComplete` reverts whenever the consumer has confirmed and
`executeCompletion` reverts whenever the provider has not, at every time;
from such a state, a single contract call takes the escrow out of Active
only via `raiseDispute` by one of the two parties within endTime + 24 hours,
or via the owner's `emergencyRefund` while paused. -/
theorem C10_half_confirmed_exits (tok : TokenEnv) (s : ContractState) (id : Nat)
    (e : EscrowRec) (hx : s.escrows[id]? = some e) (hst : e.status = Status.Active)
    (hcc : e.consumerConfirmed = true) (hpc : e.providerConfirmed = false) :
    (∀ now, autoComplete tok s id now = none) ∧
    (∀ now, executeCompletion tok s id now = none) ∧
    (∀ a s' tr e', exec tok s a = some (s', tr) → s'.escrows[id]? = some e' →
        e'.status ≠ Status.Active →
        (∃ caller now, a = Act.dispute caller id now ∧
            (caller = e.consumer ∨ caller = e.provider) ∧
            now ≤ e.endTime + 86400) ∨
        (∃ caller, a = Act.emergency caller id ∧ caller = s.owner ∧
            s.paused = true)) := by
  refine ⟨?_, ?_, ?_⟩
  · intro now
    simp [autoComplete, hx, hst, hcc, ite_self]
  · intro now
    simp [executeCompletion, hx, hst, hpc, ite_self]
  · intro a s' tr e' h he' hstat'
    cases a with
    | create caller p l2 am d =>
      exfalso
      simp only [exec] at h
      unfold createEscrow at h
      repeat (split at h <;> try exact Option.noConfusion h)
      all_goals
        simp only [Option.some.injEq, Prod.mk.injEq] at h
        obtain ⟨hs, htr⟩ := h
        subst hs
        dsimp only at he'
        rw [getElem?_append_left s.escrows _ id e hx] at he'
        injection he' with he'
        subst he'
        exact hstat' hst
    | fund caller id2 now2 =>
      exfalso
      by_cases hid : id2 = id
      · subst hid
        simp only [exec] at h
        simp [fundEscrow, hx, hst, ite_self] at h
      · simp only [exec] at h
        unfold fundEscrow at h
        cases hx2 : s.escrows[id2]? with
        | none => rw [hx2] at h; simp [ite_self] at h
        | some e0 =>
          rw [hx2] at h
          dsimp only at h
          repeat (split at h <;> try exact Option.noConfusion h)
          all_goals
            simp only [Option.some.injEq, Prod.mk.injEq] at h
            obtain ⟨hs, htr⟩ := h
            subst hs
            dsimp only at he'
            rw [getElem?_set_other _ id2 id _ hid, hx] at he'
            injection he' with he'
            subst he'
            exact hstat' hst
    | deliver caller id2 kh =>
      exfalso
      by_cases hid : id2 = id
      · subst hid
        simp only [exec] at h
        simp [deliverKey, hx, hst, ite_self] at h
      · simp only [exec] at h
        unfold deliverKey at h
        cases hx2 : s.escrows[id2]? with
        | none => rw [hx2] at h; simp [ite_self] at h
        | some e0 =>
          rw [hx2] at h
          dsimp only at h
          repeat (split at h <;> try exact Option.noConfusion h)
          all_goals
            simp only [Option.some.injEq, Prod.mk.injEq] at h
            obtain ⟨hs, htr⟩ := h
            subst hs
            dsimp only at he'
            rw [getElem?_set_other _ id2 id _ hid, hx] at he'
            injection he' with he'
            subst he'
            exact hstat' hst
    | confirmKey caller id2 =>
      exfalso
      simp only [exec] at h
      unfold confirmKeyReceipt at h
      cases hx2 : s.escrows[id2]? with
      | none => rw [hx2] at h; exact Option.noConfusion h
      | some e0 =>
        rw [hx2] at h
        dsimp only at h
        repeat (split at h <;> try exact Option.noConfusion h)
        all_goals
          simp only [Option.some.injEq, Prod.mk.injEq] at h
          obtain ⟨hs, htr⟩ := h
          subst hs
          rw [hx] at he'
          injection he' with he'
          subst he'
          exact hstat' hst
    | report caller id2 usage now2 =>
      exfalso
      by_cases hid : id2 = id
      · subst hid
        simp only [exec] at h
        obtain ⟨e0, rec, hx0, hesc, hrecst⟩ :=
          reportUsage_shape s s' caller id2 usage now2 tr h
        rw [hx] at hx0
        injection hx0 with hx0
        subst hx0
        rw [hesc, getElem?_set_same s.escrows id2 e rec hx] at he'
        injection he' with he'
        subst he'
        exact hstat' (hrecst.trans hst)
      · simp only [exec] at h
        obtain ⟨e0, rec, hx0, hesc, hrecst⟩ :=
          reportUsage_shape s s' caller id2 usage now2 tr h
        rw [hesc, getElem?_set_other _ id2 id _ hid, hx] at he'
        injection he' with he'
        subst he'
        exact hstat' hst
    | execComplete id2 now2 =>
      exfalso
      by_cases hid : id2 = id
      · subst hid
        simp only [exec] at h
        simp [executeCompletion, hx, hst, hpc, ite_self] at h
      · simp only [exec] at h
        unfold executeCompletion completeEscrow at h
        cases hx2 : s.escrows[id2]? with
        | none => rw [hx2] at h; simp [ite_self] at h
        | some e0 =>
          rw [hx2] at h
          dsimp only at h
          repeat (split at h <;> try exact Option.noConfusion h)
          all_goals
            simp only [Option.some.injEq, Prod.mk.injEq] at h
            obtain ⟨hs, htr⟩ := h
            subst hs
            dsimp only at he'
            rw [getElem?_set_other _ id2 id _ hid, hx] at he'
            injection he' with he'
            subst he'
            exact hstat' hst
    | dispute caller2 id2 now2 =>
      by_cases hid : id2 = id
      · subst hid
        left
        simp only [exec] at h
        unfold raiseDispute at h
        rw [hx] at h
        dsimp only at h
        split at h
        · exact Option.noConfusion h
        split at h
        · exact Option.noConfusion h
        rename_i hparty
        split at h
        · exact Option.noConfusion h
        rename_i hwin
        exact ⟨caller2, now2, rfl, not_not.mp hparty, Nat.not_lt.mp hwin⟩
      · exfalso
        simp only [exec] at h
        unfold raiseDispute at h
        cases hx2 : s.escrows[id2]? with
        | none => rw [hx2] at h; exact Option.noConfusion h
        | some e0 =>
          rw [hx2] at h
          dsimp only at h
          repeat (split at h <;> try exact Option.noConfusion h)
          all_goals
            simp only [Option.some.injEq, Prod.mk.injEq] at h
            obtain ⟨hs, htr⟩ := h
            subst hs
            dsimp only at he'
            rw [getElem?_set_other _ id2 id _ hid, hx] at he'
            injection he' with he'
            subst he'
            exact hstat' hst
    | resolve caller2 id2 pA cA =>
      exfalso
      by_cases hid : id2 = id
      · subst hid
        simp only [exec] at h
        simp [resolveDispute, hx, hst, ite_self] at h
      · simp only [exec] at h
        unfold resolveDispute at h
        cases hx2 : s.escrows[id2]? with
        | none => rw [hx2] at h; simp [ite_self] at h
        | some e0 =>
          rw [hx2] at h
          dsimp only at h
          repeat (split at h <;> try exact Option.noConfusion h)
          all_goals
            simp only [Option.some.injEq, Prod.mk.injEq] at h
            obtain ⟨hs, htr⟩ := h
            subst hs
            dsimp only at he'
            rw [getElem?_set_other _ id2 id _ hid, hx] at he'
            injection he' with he'
            subst he'
            exact hstat' hst
    | refundExp id2 now2 =>
      exfalso
      by_cases hid : id2 = id
      · subst hid
        simp only [exec] at h
        simp [refundExpired, hx, hst, ite_self] at h
      · simp only [exec] at h
        unfold refundExpired at h
        cases hx2 : s.escrows[id2]? with
        | none => rw [hx2] at h; simp [ite_self] at h
        | some e0 =>
          rw [hx2] at h
          dsimp only at h
          repeat (split at h <;> try exact Option.noConfusion h)
          all_goals
            simp only [Option.some.injEq, Prod.mk.injEq] at h
            obtain ⟨hs, htr⟩ := h
            subst hs
            dsimp only at he'
            rw [getElem?_set_other _ id2 id _ hid, hx] at he'
            injection he' with he'
            subst he'
            exact hstat' hst
    | autoComp id2 now2 =>
      exfalso
      by_cases hid : id2 = id
      · subst hid
        simp only [exec] at h
        simp [autoComplete, hx, hst, hcc, ite_self] at h
      · simp only [exec] at h
        unfold autoComplete completeEscrow at h
        cases hx2 : s.escrows[id2]? with
        | none => rw [hx2] at h; simp [ite_self] at h
        | some e0 =>
          rw [hx2] at h
          dsimp only at h
          rw [getElem?_set_same s.escrows id2 e0 _ hx2] at h
          dsimp only at h
          repeat (split at h <;> try exact Option.noConfusion h)
          all_goals
            simp only [Option.some.injEq, Prod.mk.injEq] at h
            obtain ⟨hs, htr⟩ := h
            subst hs
            dsimp only at he'
            rw [getElem?_set_other _ id2 id _ hid,
                getElem?_set_other _ id2 id _ hid, hx] at he'
            injection he' with he'
            subst he'
            exact hstat' hst
    | withdrawProvider caller2 =>
      exfalso
      simp only [exec] at h
      unfold withdrawProviderBalance at h
      dsimp only at h
      repeat (split at h <;> try exact Option.noConfusion h)
      all_goals
        simp only [Option.some.injEq, Prod.mk.injEq] at h
        obtain ⟨hs, htr⟩ := h
        subst hs
        dsimp only at he'
        rw [hx] at he'
        injection he' with he'
        subst he'
        exact hstat' hst
    | withdrawFees caller2 =>
      exfalso
      simp only [exec] at h
      unfold withdrawPlatformFees at h
      dsimp only at h
      repeat (split at h <;> try exact Option.noConfusion h)
      all_goals
        simp only [Option.some.injEq, Prod.mk.injEq] at h
        obtain ⟨hs, htr⟩ := h
        subst hs
        dsimp only at he'
        rw [hx] at he'
        injection he' with he'
        subst he'
        exact hstat' hst
    | schedFee caller2 p u now2 =>
      exfalso
      simp only [exec] at h
      unfold scheduleFeeUpdate at h
      repeat (split at h <;> try exact Option.noConfusion h)
      all_goals
        simp only [Option.some.injEq, Prod.mk.injEq] at h
        obtain ⟨hs, htr⟩ := h
        subst hs
        dsimp only at he'
        rw [hx] at he'
        injection he' with he'
        subst he'
        exact hstat' hst
    | execFee now2 =>
      exfalso
      simp only [exec] at h
      unfold executeFeeUpdate at h
      repeat (split at h <;> try exact Option.noConfusion h)
      all_goals
        simp only [Option.some.injEq, Prod.mk.injEq] at h
        obtain ⟨hs, htr⟩ := h
        subst hs
        dsimp only at he'
        rw [hx] at he'
        injection he' with he'
        subst he'
        exact hstat' hst
    | cancelFee caller2 =>
      exfalso
      simp only [exec] at h
      unfold cancelFeeUpdate at h
      repeat (split at h <;> try exact Option.noConfusion h)
      all_goals
        simp only [Option.some.injEq, Prod.mk.injEq] at h
        obtain ⟨hs, htr⟩ := h
        subst hs
        dsimp only at he'
        rw [hx] at he'
        injection he' with he'
        subst he'
        exact hstat' hst
    | doPause caller2 =>
      exfalso
      simp only [exec] at h
      unfold pause at h
      repeat (split at h <;> try exact Option.noConfusion h)
      all_goals
        simp only [Option.some.injEq, Prod.mk.injEq] at h
        obtain ⟨hs, htr⟩ := h
        subst hs
        dsimp only at he'
        rw [hx] at he'
        injection he' with he'
        subst he'
        exact hstat' hst
    | schedUnpause caller2 now2 =>
      exfalso
      simp only [exec] at h
      unfold scheduleUnpause at h
      repeat (split at h <;> try exact Option.noConfusion h)
      all_goals
        simp only [Option.some.injEq, Prod.mk.injEq] at h
        obtain ⟨hs, htr⟩ := h
        subst hs
        dsimp only at he'
        rw [hx] at he'
        injection he' with he'
        subst he'
        exact hstat' hst
    | doUnpause now2 =>
      exfalso
      simp only [exec] at h
      unfold unpause at h
      repeat (split at h <;> try exact Option.noConfusion h)
      all_goals
        simp only [Option.some.injEq, Prod.mk.injEq] at h
        obtain ⟨hs, htr⟩ := h
        subst hs
        dsimp only at he'
        rw [hx] at he'
        injection he' with he'
        subst he'
        exact hstat' hst
    | setMax caller2 m =>
      exfalso
      simp only [exec] at h
      unfold setMaxEscrowAmount at h
      repeat (split at h <;> try exact Option.noConfusion h)
      all_goals
        simp only [Option.some.injEq, Prod.mk.injEq] at h
        obtain ⟨hs, htr⟩ := h
        subst hs
        dsimp only at he'
        rw [hx] at he'
        injection he' with he'
        subst he'
        exact hstat' hst
    | setDelay caller2 d =>
      exfalso
      simp only [exec] at h
      unfold setCompletionDelay at h
      repeat (split at h <;> try exact Option.noConfusion h)
      all_goals
        simp only [Option.some.injEq, Prod.mk.injEq] at h
        obtain ⟨hs, htr⟩ := h
        subst hs
        dsimp only at he'
        rw [hx] at he'
        injection he' with he'
        subst he'
        exact hstat' hst
    | emergency caller2 id2 =>
      by_cases hid : id2 = id
      · subst hid
        right
        simp only [exec] at h
        unfold emergencyRefund at h
        split at h
        · exact Option.noConfusion h
        rename_i howner
        split at h
        · exact Option.noConfusion h
        rename_i hpaused
        refine ⟨caller2, rfl, not_not.mp howner, ?_⟩
        cases hb : s.paused with
        | false => exact absurd hb hpaused
        | true => rfl
      · exfalso
        simp only [exec] at h
        unfold emergencyRefund at h
        cases hx2 : s.escrows[id2]? with
        | none => rw [hx2] at h; simp [ite_self] at h
        | some e0 =>
          rw [hx2] at h
          dsimp only at h
          repeat (split at h <;> try exact Option.noConfusion h)
          all_goals
            simp only [Option.some.injEq, Prod.mk.injEq] at h
            obtain ⟨hs, htr⟩ := h
            subst hs
            dsimp only at he'
            rw [getElem?_set_other _ id2 id _ hid, hx] at he'
            injection he' with he'
            subst he'
            exact hstat' hst

/-- Witness for C10: the half-confirmed escrow cannot be auto-completed or
completed. -/
theorem C10_half_confirmed_exits_witness :
    autoComplete tokAll sHalf 0 999999 = none ∧
    executeCompletion tokAll sHalf 0 999999 = none :=
  ⟨(C10_half_confirmed_exits tokAll sHalf 0 eHalf (by decide) (by decide)
      (by decide) (by decide)).1 999999,
   (C10_half_confirmed_exits tokAll sHalf 0 eHalf (by decide) (by decide)
      (by decide) (by decide)).2.1 999999⟩

end Diem
